import Mathlib

/-!
Shallow embedding of the console-blackjack program (src/blackjack.py and
src/cards.py) and proofs about its specification claims.

Conventions of the embedding:
* Python's mutable objects become immutable Lean structures; every mutating
  method returns the updated structure.
* Card ranks are `number : Nat` in 1..13 (1 = Ace, 11..13 = face cards),
  suits are `suit : Nat` in 0..3, exactly as in the source.
* Money (`bet`, `total_money`) is modelled by `Rat`; the Python source uses
  floats, but every amount manipulated is a multiple of 0.5 times an integer
  so rational arithmetic is exact and faithful.
* `random.shuffle` is modelled by an oracle function `List Card → List Card`
  supplied by the caller; theorems that need conservation assume the oracle
  permutes its input.
* Exceptions (`ValueError` on a bad deck count, `IndexError` on popping an
  empty list) are modelled with an error type `DeckErr`; `Deck.draw` also
  returns the post-exception deck state because Python's loop mutates the
  list before the exception propagates.
-/

namespace Blackjack

/-- A playing card: `suit` indexes into `['S','H','C','D']`, `number` is the
rank 1..13 with 1 = Ace and 11..13 = J, Q, K. -/
structure Card where
  suit : Nat
  number : Nat
deriving DecidableEq

/-- Number of aces in a list of cards, as counted by the loop in
`Hand.updateScore`. -/
def countAces (cards : List Card) : Nat :=
  (cards.filter (fun c => c.number == 1)).length

/-- The `nonAces` list collected by `Hand.updateScore`: one entry per
non-ace card, ranks above 9 contributing 10, the rest themselves. -/
def nonAces (cards : List Card) : List Nat :=
  cards.filterMap (fun c =>
    if c.number = 1 then none
    else if c.number > 9 then some 10
    else some c.number)

/-- The `sum(nonAces)` of `Hand.updateScore`. -/
def nonAceSum (cards : List Card) : Nat :=
  (nonAces cards).sum

/-- The `while score > 21 and aces > 0: score -= 10; aces -= 1` loop of
`Hand.updateScore`, recursing on the remaining ace count. -/
def reduceAces (score : Nat) (aces : Nat) : Nat :=
  match aces with
  | 0 => score
  | a + 1 => if score > 21 then reduceAces (score - 10) a else score

/-- The score `Hand.updateScore` computes for a list of cards: non-ace sum
plus 11 per ace, then the soft-ace reduction loop. -/
def handScore (cards : List Card) : Nat :=
  reduceAces (nonAceSum cards + countAces cards * 11) (countAces cards)

/-- A hand: cards plus the cached score and status flags maintained by the
Python class. `status` is 10 in play, -1 lost, 0 tie, 1 win. -/
structure Hand where
  cards : List Card
  score : Nat
  hideDealerCards : Bool
  bust : Bool
  bet : Rat
  status : Int
  blackjack : Bool
  split : Bool
deriving DecidableEq

/-- `Hand.updateScore`: recompute `score` from `cards`; set `bust` when the
score exceeds 21 and `blackjack` when exactly two cards score 21. The
source only ever sets these flags, it never clears them. -/
def Hand.updateScore (h : Hand) : Hand :=
  let score := handScore h.cards
  let bust := if score > 21 then true else h.bust
  let blackjack := if score = 21 ∧ h.cards.length = 2 then true else h.blackjack
  { h with score := score, bust := bust, blackjack := blackjack }

/-- `Hand.__init__`: fresh hand with cleared flags, then `updateScore`. -/
def Hand.init (cards : List Card) (bet : Rat) (isDealer : Bool := false) : Hand :=
  Hand.updateScore
    { cards := cards, score := 0, hideDealerCards := isDealer, bust := false,
      bet := bet, status := 10, blackjack := false, split := false }

/-- `Hand.addToHand`: extend the card list and re-run `updateScore`. -/
def Hand.addToHand (h : Hand) (cs : List Card) : Hand :=
  Hand.updateScore { h with cards := h.cards ++ cs }

/-- `Hand.popFromHand`: remove and return the last card, then `updateScore`;
`none` models the `IndexError` raised by popping an empty list. -/
def Hand.popFromHand (h : Hand) : Option (Card × Hand) :=
  match h.cards.getLast? with
  | none => none
  | some c => some (c, Hand.updateScore { h with cards := h.cards.dropLast })

/-- `Hand.finishHand`: set the settlement status against the dealer hand,
evaluating the three clauses in source order. -/
def Hand.finishHand (h : Hand) (dealer : Hand) : Hand :=
  if h.bust || (!dealer.bust && decide (dealer.score > h.score)) then
    { h with status := -1 }
  else if dealer.score = h.score then
    { h with status := 0 }
  else
    { h with status := 1 }

/-- `Hand.checkHand`: return the status field. -/
def Hand.checkHand (h : Hand) : Int := h.status

/-- Error outcomes of deck operations: `invalidArgument` models the
`ValueError` for a bad deck count, `underflow` the `IndexError` from
popping an empty card list. -/
inductive DeckErr where
  | invalidArgument
  | underflow
deriving DecidableEq

/-- A shoe of cards. The Python list's end is the list's end here, so a
`pop` removes the last element. -/
structure Deck where
  deck : List Card
deriving DecidableEq

/-- One 52-card deck in the construction order of `Deck.__init__` in
blackjack.py: for each rank 1..13, for each suit 0..3. -/
def oneDeck : List Card :=
  (List.range 13).flatMap (fun n => (List.range 4).map (fun s => Card.mk s (n + 1)))

/-- `Deck.__init__(num_decks)`: `num_decks` copies of the 52 cards, raising
`invalidArgument` when `num_decks < 1`. The argument is an `Int` so a
negative count is representable, as in Python. -/
def Deck.init (num_decks : Int) : Except DeckErr Deck :=
  if num_decks < 1 then Except.error DeckErr.invalidArgument
  else Except.ok ⟨(List.range num_decks.toNat).flatMap (fun _ => oneDeck)⟩

/-- Result of running the `draw` loop: the deck after the loop stops, the
accumulated drawn cards, and whether a pop raised. On an error the drawn
cards stay inside this record only: the Python exception discards `ret`. -/
structure DrawResult where
  deck : List Card
  drawn : List Card
  errored : Bool
deriving DecidableEq

/-- The `for _ in range(num): ret.append(self.deck.pop())` loop. Each pop
takes the last element; popping an empty list stops the loop with
`errored := true`, leaving the deck in its mutated (empty) state. -/
def drawLoop (num : Nat) (deck : List Card) (acc : List Card) : DrawResult :=
  match num with
  | 0 => ⟨deck, acc, false⟩
  | n + 1 =>
    match deck.getLast? with
    | none => ⟨deck, acc, true⟩
    | some c => drawLoop n deck.dropLast (acc ++ [c])

/-- `Deck.draw(num)`: run the pop loop; return the post-loop deck together
with either the drawn cards or the `underflow` error. -/
def Deck.draw (d : Deck) (num : Nat) : Deck × Except DeckErr (List Card) :=
  let r := drawLoop num d.deck []
  (⟨r.deck⟩, if r.errored then Except.error DeckErr.underflow else Except.ok r.drawn)

/-- `Deck.returnToDeck(cards)`: append the cards to the deck's end and
report how many were returned. -/
def Deck.returnToDeck (d : Deck) (cards : List Card) : Deck × Nat :=
  (⟨d.deck ++ cards⟩, cards.length)

/-- `Deck.shuffleDeck` with the random permutation supplied as an oracle. -/
def Deck.shuffleDeck (d : Deck) (shuffle : List Card → List Card) : Deck :=
  ⟨shuffle d.deck⟩

end Blackjack

namespace Blackjack

/-- The game state: dealer hand, player hands, shoe, bankroll and the two
scalar settings kept by `Game.__init__`. -/
structure Game where
  dealer : Hand
  hands : List Hand
  deck : Deck
  total_money : Rat
  minimum_buy : Rat
  num_hands : Nat
deriving DecidableEq

/-- `Game.__init__`: build the shoe, create one empty hand per seat taking
its bet from `starting_bets` when present (else `minimum_buy`), deduct each
bet from the bankroll, and create the dealer hand. -/
def Game.init (hands_to_play : Nat) (total_money : Rat) (minimum_buy : Rat)
    (starting_bets : List Rat) (num_decks : Int) : Except DeckErr Game :=
  match Deck.init num_decks with
  | Except.error e => Except.error e
  | Except.ok deck =>
    let step := fun (acc : List Hand × Rat) (i : Nat) =>
      let bet := starting_bets.getD i minimum_buy
      (acc.1 ++ [Hand.init [] bet], acc.2 - bet)
    let hm := (List.range hands_to_play).foldl step ([], total_money)
    Except.ok { dealer := Hand.init [] 0 true, hands := hm.1, deck := deck,
                total_money := hm.2, minimum_buy := minimum_buy,
                num_hands := hands_to_play }

/-- `Game.hit(player_no)`: draw one card into the dealer's hand when
`player_no = -1`, else into the indexed player hand; `none` models an
exception (empty shoe or bad index). -/
def Game.hit (g : Game) (player_no : Int) : Option Game :=
  match Deck.draw g.deck 1 with
  | (d', Except.ok cs) =>
    if player_no = -1 then
      some { g with deck := d', dealer := g.dealer.addToHand cs }
    else
      match g.hands[player_no.toNat]? with
      | none => none
      | some h =>
        some { g with deck := d', hands := g.hands.set player_no.toNat (h.addToHand cs) }
  | (_, Except.error _) => none

/-- One pass of `for h in self.hands: h.addToHand(self.deck.draw(1))`. -/
def dealToHands (deck : Deck) (hands : List Hand) : Option (Deck × List Hand) :=
  match hands with
  | [] => some (deck, [])
  | h :: t =>
    match Deck.draw deck 1 with
    | (d', Except.ok cs) =>
      match dealToHands d' t with
      | some (d'', t') => some (d'', h.addToHand cs :: t')
      | none => none
    | (_, Except.error _) => none

/-- One iteration of the body of `Game.deal`: two cards to every player
hand one at a time, then two cards to the dealer. -/
def dealOnce (g : Game) : Option Game :=
  match dealToHands g.deck g.hands with
  | none => none
  | some (d1, hs1) =>
    match dealToHands d1 hs1 with
    | none => none
    | some (d2, hs2) =>
      match Deck.draw d2 2 with
      | (d3, Except.ok cs) =>
        some { g with deck := d3, hands := hs2, dealer := g.dealer.addToHand cs }
      | (_, Except.error _) => none

/-- `Game.resetDeck`: return every player hand's cards and the dealer's
cards to the shoe, empty all those hands, and shuffle. -/
def Game.resetDeck (g : Game) (shuffle : List Card → List Card) : Game :=
  let deck1 := g.hands.foldl (fun d h => (d.returnToDeck h.cards).1) g.deck
  let hands' := g.hands.map (fun h => { h with cards := ([] : List Card) })
  let deck2 := (deck1.returnToDeck g.dealer.cards).1
  { g with deck := deck2.shuffleDeck shuffle, hands := hands',
           dealer := { g.dealer with cards := ([] : List Card) } }

/-- `Game.deal`: deal a round; while the dealer's two cards score 21,
reset the deck (with the next shuffle oracle) and retry. `fuel` bounds the
number of attempts, `none` meaning the bound (or the shoe) ran out. -/
def Game.deal (g : Game) (shuffles : Nat → List Card → List Card) (fuel : Nat) : Option Game :=
  match fuel with
  | 0 => none
  | f + 1 =>
    match dealOnce g with
    | none => none
    | some g' =>
      if g'.dealer.score = 21 then
        Game.deal (g'.resetDeck (shuffles f)) shuffles f
      else some g'

/-- The actions `actionPrompt` offers, in the order it appends them. -/
inductive Action where
  | hit
  | stay
  | double
  | split
deriving DecidableEq

/-- Rank of the card at position `i` (0 when out of range; callers guard
with a length check exactly as the source indexes only after
`len(hand.cards) == 2`). -/
def cardNumAt (l : List Card) (i : Nat) : Nat :=
  (l.getD i (Card.mk 0 0)).number

/-- The `actions` list built at the top of `Game.actionPrompt`: Hit and
Stay always; Double when the hand has two cards, is not a split hand and
the bankroll covers the bet; Split additionally when both cards share a
rank. -/
def availableActions (money : Rat) (h : Hand) : List Action :=
  let actions := [Action.hit, Action.stay]
  if h.cards.length = 2 then
    if ¬h.split ∧ money ≥ h.bet then
      let actions2 := actions ++ [Action.double]
      if cardNumAt h.cards 0 = cardNumAt h.cards 1 then actions2 ++ [Action.split]
      else actions2
    else actions
  else actions

/-- The list rebuild of the Split branch: walk the hand list appending
each hand, and right after position `i` also append the new hand (the
`temp` loop in the source). -/
def insertAfterIdx (hands : List Hand) (i : Nat) (nh : Hand) : List Hand :=
  match hands with
  | [] => []
  | h :: t =>
    match i with
    | 0 => h :: nh :: t
    | j + 1 => h :: insertAfterIdx t j nh

/-- The state change of the `case "4"` (Split) branch of `actionPrompt`:
deduct the bet, pop the hand's last card into a new hand with the same
bet, mark both hands split, and rebuild the hand list with the new hand
inserted right after position `hand_i`. -/
def Game.splitAt (g : Game) (hand_i : Nat) : Option Game :=
  match g.hands[hand_i]? with
  | none => none
  | some hand =>
    match hand.popFromHand with
    | none => none
    | some cr =>
      let hand2 := { cr.2 with split := true }
      let new_hand := { Hand.init [cr.1] hand.bet with split := true }
      let base := g.hands.set hand_i hand2
      let hands' := insertAfterIdx base hand_i new_hand
      some { g with total_money := g.total_money - hand.bet, hands := hands' }

/-- The `while user_input == "1"` hit loop inside `actionPrompt`: hit, stop
if the hand busts, otherwise read the next input (1 = hit again, 2 =
stay). The script supplies the user's inputs; `none` models running out of
fuel, script or cards. -/
def hitLoop (fuel : Nat) (script : List Nat) (g : Game) (hand_i : Nat) :
    Option (Game × List Nat) :=
  match fuel with
  | 0 => none
  | f + 1 =>
    match g.hit (Int.ofNat hand_i) with
    | none => none
    | some g' =>
      match g'.hands[hand_i]? with
      | none => none
      | some h =>
        if h.bust then some (g', script)
        else
          match script with
          | [] => none
          | c :: rest =>
            if c = 1 then hitLoop f rest g' hand_i
            else if c = 2 then some (g', rest)
            else none

/-- `Game.actionPrompt(hand_i)` driven by a script of numeric menu inputs.
A blackjack hand is announced and skipped; a split hand led by an ace
draws exactly one card; otherwise the next script entry picks from the
available actions (1 Hit, 2 Stay, 3 Double, 4 Split) and the Split branch
re-enters `actionPrompt` on the same index. -/
def actionPrompt (fuel : Nat) (script : List Nat) (g : Game) (hand_i : Nat) :
    Option (Game × List Nat) :=
  match fuel with
  | 0 => none
  | f + 1 =>
    match g.hands[hand_i]? with
    | none => none
    | some hand =>
      if hand.blackjack then some (g, script)
      else if hand.split && cardNumAt hand.cards 0 == 1 then
        match g.hit (Int.ofNat hand_i) with
        | none => none
        | some g' => some (g', script)
      else
        let n := (availableActions g.total_money hand).length
        match script with
        | [] => none
        | c :: rest =>
          if 1 ≤ c ∧ c ≤ n then
            if c = 1 then hitLoop f rest g hand_i
            else if c = 2 then some (g, rest)
            else if c = 3 then
              let hand2 := { hand with bet := hand.bet + hand.bet }
              let g1 := { g with total_money := g.total_money - hand.bet,
                                 hands := g.hands.set hand_i hand2 }
              match g1.hit (Int.ofNat hand_i) with
              | none => none
              | some g2 => some (g2, rest)
            else
              match g.splitAt hand_i with
              | none => none
              | some g' => actionPrompt f rest g' hand_i
          else none

/-- `Game.play_players`: `while i < len(self.hands)`, run `actionPrompt`
on hand `i` then advance to `i + 1`. -/
def playersLoop (fuel : Nat) (script : List Nat) (g : Game) (i : Nat) :
    Option (Game × List Nat) :=
  match fuel with
  | 0 => if i < g.hands.length then none else some (g, script)
  | f + 1 =>
    if i < g.hands.length then
      match actionPrompt (f + 1) script g i with
      | none => none
      | some (g', rest) => playersLoop f rest g' (i + 1)
    else some (g, script)

/-- The dealer's drawing loop in `Game.play_dealer`: while the dealer's
score is below 17, draw one card. Only the deck and the dealer's own hand
are consulted. -/
def dealerLoop (fuel : Nat) (deck : Deck) (dealer : Hand) : Option (Deck × Hand) :=
  if dealer.score < 17 then
    match fuel with
    | 0 => none
    | f + 1 =>
      match Deck.draw deck 1 with
      | (d', Except.ok cs) => dealerLoop f d' (dealer.addToHand cs)
      | (_, Except.error _) => none
  else some (deck, dealer)

/-- The per-hand bankroll adjustment in the settlement loop of
`Game.play_dealer`: push returns the bet, a blackjack win pays 2.5 times
the bet, a plain win pays twice the bet, anything else pays nothing. -/
def settleMoney (money : Rat) (h : Hand) : Rat :=
  if h.checkHand = 0 then money + h.bet
  else if h.checkHand = 1 then
    if h.blackjack then money + h.bet * (5 / 2 : Rat)
    else money + h.bet * 2
  else money

/-- `Game.play_dealer`: reveal the hidden card, run the dealer drawing
loop, then finish every hand against the dealer and apply the bankroll
adjustment for its status. -/
def Game.play_dealer (g : Game) (fuel : Nat) : Option Game :=
  let dealer0 := { g.dealer with hideDealerCards := false }
  match dealerLoop fuel g.deck dealer0 with
  | none => none
  | some dd =>
    let step := fun (acc : List Hand × Rat) (h : Hand) =>
      let h' := h.finishHand dd.2
      (acc.1 ++ [h'], settleMoney acc.2 h')
    let hm := g.hands.foldl step ([], g.total_money)
    some { g with dealer := dd.2, deck := dd.1, hands := hm.1, total_money := hm.2 }

/-- `Game.begin_game`: shuffle, deal (with retries on a dealer 21), play
every player hand by script, then run the dealer and settle. -/
def Game.begin_game (g : Game) (shuffle : List Card → List Card)
    (shuffles : Nat → List Card → List Card) (script : List Nat) (fuel : Nat) :
    Option Game :=
  let g0 := { g with deck := g.deck.shuffleDeck shuffle }
  match g0.deal shuffles fuel with
  | none => none
  | some g1 =>
    match playersLoop fuel script g1 0 with
    | none => none
    | some gr => (gr.1).play_dealer fuel

end Blackjack

namespace Blackjack

/-- Spec-side ace count: the number of cards of rank 1. -/
def specCountAces (cards : List Card) : Nat :=
  (cards.filter (fun c => c.number = 1)).length

/-- Spec-side non-ace sum, following the specification's words: sum the
non-Ace ranks, with ranks 11 through 13 each counted as 10. -/
def specNonAceSum (cards : List Card) : Nat :=
  ((cards.filter (fun c => c.number ≠ 1)).map
    (fun c => if 11 ≤ c.number ∧ c.number ≤ 13 then 10 else c.number)).sum

/-- Spec-side ace reduction, following the specification's words: the
total is repeatedly reduced by 10 while it exceeds 21 and at least one
ace is still counted as 11. -/
def specAceReduce (total : Nat) (acesAtEleven : Nat) : Nat :=
  match acesAtEleven with
  | 0 => total
  | a + 1 => if total > 21 then specAceReduce (total - 10) a else total

/-- Spec-side score: non-Ace sum plus 11 per ace, then the reduction. -/
def specScore (cards : List Card) : Nat :=
  specAceReduce (specNonAceSum cards + 11 * specCountAces cards) (specCountAces cards)

/-- Sample cards used by concrete witnesses and counterexamples. -/
def aceS : Card := ⟨0, 1⟩

/-- The two of spades. -/
def twoS : Card := ⟨0, 2⟩

/-- The five of spades. -/
def fiveS : Card := ⟨0, 5⟩

/-- The six of spades. -/
def sixS : Card := ⟨0, 6⟩

/-- The nine of spades. -/
def nineS : Card := ⟨0, 9⟩

/-- The ten of spades. -/
def tenS : Card := ⟨0, 10⟩

/-- The king of spades. -/
def kingS : Card := ⟨0, 13⟩

/-- The ace of hearts. -/
def aceH : Card := ⟨1, 1⟩

/-- The shuffle oracle for the end-to-end example: move the four named
spades to the end of the shoe so that the single player hand receives the
ace and king and the dealer receives the ten and nine. -/
def exampleShuffle : List Card → List Card := fun l =>
  (l.filter (fun c => !([nineS, tenS, kingS, aceS].contains c))) ++
    [nineS, tenS, kingS, aceS]

end Blackjack

namespace Blackjack

/-- A flag update of the form `if p then true else b` is a sticky or. -/
lemma ite_true_eq_or (b : Bool) (p : Prop) [Decidable p] :
    (if p then true else b) = (b || decide p) := by
  by_cases h : p <;> simp [h]

/-- The spec-side ace count agrees with the source's loop count. -/
lemma specCountAces_eq (cards : List Card) : specCountAces cards = countAces cards := by
  unfold specCountAces countAces
  induction cards with
  | nil => rfl
  | cons c t ih => by_cases h : c.number = 1 <;> simp [List.filter_cons, h, ih]

/-- The spec-side non-ace sum agrees with the source's, for genuine card
ranks (at most 13). -/
lemma specNonAceSum_eq (cards : List Card) (hb : ∀ c ∈ cards, c.number ≤ 13) :
    specNonAceSum cards = nonAceSum cards := by
  induction cards with
  | nil => rfl
  | cons c t ih =>
    have hc : c.number ≤ 13 := hb c (by simp)
    have ht : ∀ x ∈ t, x.number ≤ 13 := fun x hx => hb x (by simp [hx])
    by_cases h1 : c.number = 1
    · simp [specNonAceSum, nonAceSum, nonAces, List.filter_cons, List.filterMap_cons, h1]
      simpa [specNonAceSum, nonAceSum, nonAces] using ih ht
    · by_cases h9 : c.number > 9
      · have hv : (if 11 ≤ c.number ∧ c.number ≤ 13 then 10 else c.number) = 10 := by
          split <;> omega
        simp [specNonAceSum, nonAceSum, nonAces, List.filter_cons, List.filterMap_cons,
          h1, h9, hv]
        simpa [specNonAceSum, nonAceSum, nonAces] using ih ht
      · have hv : (if 11 ≤ c.number ∧ c.number ≤ 13 then 10 else c.number) = c.number := by
          split <;> omega
        simp [specNonAceSum, nonAceSum, nonAces, List.filter_cons, List.filterMap_cons,
          h1, h9, hv]
        simpa [specNonAceSum, nonAceSum, nonAces] using ih ht

/-- The spec-side ace reduction agrees with the source's loop. -/
lemma specAceReduce_eq (a : Nat) : ∀ s, specAceReduce s a = reduceAces s a := by
  induction a with
  | zero => intro s; rfl
  | succ n ih =>
    intro s
    by_cases h : s > 21 <;> simp [specAceReduce, reduceAces, h, ih]

/-- The spec-side score agrees with the source's `updateScore` score on
genuine card ranks. -/
lemma specScore_eq (cards : List Card) (hb : ∀ c ∈ cards, c.number ≤ 13) :
    specScore cards = handScore cards := by
  unfold specScore handScore
  rw [specCountAces_eq, specNonAceSum_eq cards hb, specAceReduce_eq, Nat.mul_comm]

/-- C4: the recomputed score is the non-Ace sum (faces as 10) plus 11 per
ace, reduced by 10 while over 21 with an ace still at 11; every
construction, addition and removal stores exactly that score; and the
three example hands score 21, 21 and 24 (the last busting). -/
theorem claim_C4 (bet : Rat) (h : Hand) (cs cs2 : List Card)
    (hb : ∀ c ∈ cs, c.number ≤ 13) :
    handScore cs = specScore cs
    ∧ (Hand.init cs2 bet).score = handScore cs2
    ∧ (h.addToHand cs2).score = handScore (h.cards ++ cs2)
    ∧ (∀ c h', h.popFromHand = some (c, h') → h'.score = handScore h.cards.dropLast)
    ∧ handScore [aceS, kingS] = 21
    ∧ handScore [aceS, aceH, nineS] = 21
    ∧ handScore [tenS, nineS, fiveS] = 24
    ∧ (Hand.init [tenS, nineS, fiveS] 5).bust = true := by
  refine ⟨(specScore_eq cs hb).symm, rfl, rfl, ?_, by decide, by decide, by decide, by decide⟩
  intro c h' hp
  unfold Hand.popFromHand at hp
  cases hg : h.cards.getLast? with
  | none => rw [hg] at hp; exact absurd hp (by simp)
  | some c0 =>
    rw [hg] at hp
    simp only [Option.some.injEq, Prod.mk.injEq] at hp
    rw [← hp.2]
    rfl

/-- Witness for C4 at the concrete hand `[ace]`. -/
theorem claim_C4_witness : handScore [aceS] = specScore [aceS] :=
  (claim_C4 5 (Hand.init [] 5) [aceS] [] (by decide)).1

end Blackjack

namespace Blackjack

/-- C1 is false as stated: popping the five from the bust hand
`[ten, nine, five]` leaves a hand scoring 19 whose `bust` flag is still
true (the flag is never cleared), and a hand produced by a split (a lone
ace marked split) that hits a king becomes a two-card 21 that *is*
flagged blackjack. -/
theorem claim_C1_counterexample :
    ((Hand.init [tenS, nineS, fiveS] 5).popFromHand.map
        (fun p => (p.2.bust, p.2.score))) = some (true, 19)
    ∧ ¬(19 > 21)
    ∧ (({ Hand.init [aceS] 50 with split := true }).addToHand [kingS]).split = true
    ∧ (({ Hand.init [aceS] 50 with split := true }).addToHand [kingS]).cards.length = 2
    ∧ (({ Hand.init [aceS] 50 with split := true }).addToHand [kingS]).blackjack = true := by
  refine ⟨by decide, by decide, by decide, by decide, by decide⟩

/-- C1 amended: `updateScore` only ever sets the flags, so after any
addition or removal `isBust` is the old flag or-ed with "new score over
21" and `isBlackjack` is the old flag or-ed with "exactly two cards
scoring 21"; on a hand whose flag is still clear (in particular any
freshly constructed hand, and hence along any chain of additions) the
if-and-only-if characterisations hold, but a removal can leave a stale
flag, and a two-card 21 assembled after a split is flagged blackjack
too. -/
theorem claim_C1 (h : Hand) (cs : List Card) (bet : Rat) :
    ((h.addToHand cs).bust = (h.bust || decide (handScore (h.cards ++ cs) > 21)))
    ∧ ((h.addToHand cs).blackjack
        = (h.blackjack || decide (handScore (h.cards ++ cs) = 21 ∧ (h.cards ++ cs).length = 2)))
    ∧ (∀ c h', h.popFromHand = some (c, h') →
        h'.bust = (h.bust || decide (handScore h.cards.dropLast > 21))
        ∧ h'.blackjack
          = (h.blackjack || decide (handScore h.cards.dropLast = 21 ∧ h.cards.dropLast.length = 2)))
    ∧ ((Hand.init cs bet).bust = decide (handScore cs > 21))
    ∧ ((Hand.init cs bet).blackjack = decide (handScore cs = 21 ∧ cs.length = 2))
    ∧ (h.bust = false → ((h.addToHand cs).bust = true ↔ handScore (h.cards ++ cs) > 21))
    ∧ (h.blackjack = false → ((h.addToHand cs).blackjack = true
        ↔ (handScore (h.cards ++ cs) = 21 ∧ (h.cards ++ cs).length = 2))) := by
  have hadd : (h.addToHand cs).bust = (h.bust || decide (handScore (h.cards ++ cs) > 21)) := by
    simp [Hand.addToHand, Hand.updateScore, ite_true_eq_or, Bool.or_comm]
  have haddbj : (h.addToHand cs).blackjack
      = (h.blackjack || decide (handScore (h.cards ++ cs) = 21 ∧ (h.cards ++ cs).length = 2)) := by
    simp [Hand.addToHand, Hand.updateScore, ite_true_eq_or, Bool.or_comm]
  refine ⟨hadd, haddbj, ?_, ?_, ?_, ?_, ?_⟩
  · intro c h' hp
    unfold Hand.popFromHand at hp
    cases hg : h.cards.getLast? with
    | none => rw [hg] at hp; exact absurd hp (by simp)
    | some c0 =>
      rw [hg] at hp
      simp only [Option.some.injEq, Prod.mk.injEq] at hp
      rw [← hp.2]
      constructor <;> simp [Hand.updateScore, ite_true_eq_or, Bool.or_comm]
  · simp [Hand.init, Hand.updateScore, ite_true_eq_or]
  · simp [Hand.init, Hand.updateScore, ite_true_eq_or]
  · intro hb; rw [hadd, hb]; simp
  · intro hb; rw [haddbj, hb]; simp

/-- Witness for C1 at a concrete fresh hand and addition. -/
theorem claim_C1_witness :
    ((Hand.init [tenS] 5).addToHand [nineS]).bust = false :=
  by
    have hmain := claim_C1 (Hand.init [tenS] 5) [nineS] 5
    have hfree := hmain.2.2.2.2.2.1 (by decide)
    have : ¬ handScore ((Hand.init [tenS] 5).cards ++ [nineS]) > 21 := by decide
    cases hbv : ((Hand.init [tenS] 5).addToHand [nineS]).bust with
    | false => rfl
    | true => exact absurd (hfree.mp hbv) this

end Blackjack

namespace Blackjack

/-- C3: `finishHand` assigns status by the ordered clauses: -1 when the
hand is bust or a non-bust dealer outscores it, else 0 on equal scores,
else 1; a bust hand always loses whatever the dealer did, and a non-bust
hand beats a busted dealer. Settlement changes nothing else about the
hand. -/
theorem claim_C3 (h dealer : Hand) :
    ((h.finishHand dealer).status =
      if h.bust = true ∨ (dealer.bust = false ∧ h.score < dealer.score) then -1
      else if dealer.score = h.score then 0 else 1)
    ∧ (h.bust = true → (h.finishHand dealer).status = -1)
    ∧ (h.bust = false → dealer.bust = true → h.score ≤ 21 → 21 < dealer.score →
        (h.finishHand dealer).status = 1)
    ∧ (h.finishHand dealer).cards = h.cards
    ∧ (h.finishHand dealer).bet = h.bet
    ∧ (h.finishHand dealer).blackjack = h.blackjack
    ∧ (h.finishHand dealer).score = h.score
    ∧ (h.finishHand dealer).bust = h.bust := by
  have hmain : (h.finishHand dealer).status =
      if h.bust = true ∨ (dealer.bust = false ∧ h.score < dealer.score) then -1
      else if dealer.score = h.score then 0 else 1 := by
    unfold Hand.finishHand
    by_cases hb : h.bust <;> by_cases hd : dealer.bust <;>
      by_cases hlt : h.score < dealer.score <;> by_cases heq : dealer.score = h.score <;>
      simp [hb, hd, hlt, heq]
  refine ⟨hmain, ?_, ?_, ?_, ?_, ?_, ?_, ?_⟩
  · intro hb; rw [hmain]; simp [hb]
  · intro hb hd hs hds
    rw [hmain]
    have h1 : ¬(h.bust = true ∨ (dealer.bust = false ∧ h.score < dealer.score)) := by
      simp [hb, hd]
    have h2 : dealer.score ≠ h.score := by omega
    simp [h1, h2]
  · unfold Hand.finishHand; split <;> try rfl
    split <;> rfl
  · unfold Hand.finishHand; split <;> try rfl
    split <;> rfl
  · unfold Hand.finishHand; split <;> try rfl
    split <;> rfl
  · unfold Hand.finishHand; split <;> try rfl
    split <;> rfl
  · unfold Hand.finishHand; split <;> try rfl
    split <;> rfl

/-- Witness for C3: a bust player hand loses even though the dealer also
busts. -/
theorem claim_C3_witness :
    ((Hand.init [tenS, nineS, fiveS] 5).finishHand
      (Hand.init [tenS, sixS, nineS] 0 true)).status = -1 :=
  (claim_C3 (Hand.init [tenS, nineS, fiveS] 5) (Hand.init [tenS, sixS, nineS] 0 true)).2.1
    (by decide)

end Blackjack

namespace Blackjack

/-- The draw loop errors exactly when asked for more cards than remain. -/
lemma drawLoop_errored (k : Nat) : ∀ deck acc : List Card,
    (drawLoop k deck acc).errored = decide (deck.length < k) := by
  induction k with
  | zero => intro deck acc; simp [drawLoop]
  | succ n ih =>
    intro deck acc
    rcases List.eq_nil_or_concat deck with rfl | ⟨l, a, rfl⟩
    · simp [drawLoop]
    · simp only [drawLoop, List.concat_eq_append, List.getLast?_concat,
        List.dropLast_concat, ih]
      rw [decide_eq_decide]
      simp

/-- When the draw loop succeeds, the post-loop deck followed by the
reversed drawn cards reassembles the starting deck. -/
lemma drawLoop_success_append (k : Nat) : ∀ deck acc dk dr : List Card,
    drawLoop k deck acc = ⟨dk, dr, false⟩ → dk ++ dr.reverse = deck ++ acc.reverse := by
  induction k with
  | zero =>
    intro deck acc dk dr hev
    simp only [drawLoop, DrawResult.mk.injEq] at hev
    rw [hev.1, hev.2.1]
  | succ n ih =>
    intro deck acc dk dr hev
    rcases List.eq_nil_or_concat deck with rfl | ⟨l, a, rfl⟩
    · simp [drawLoop] at hev
    · simp only [drawLoop, List.concat_eq_append, List.getLast?_concat,
        List.dropLast_concat] at hev
      have := ih l (acc ++ [a]) dk dr hev
      rw [this]
      simp

/-- When the draw loop succeeds it has drawn exactly the requested number
of cards and shortened the deck by that number. -/
lemma drawLoop_success_length (k : Nat) : ∀ deck acc dk dr : List Card,
    drawLoop k deck acc = ⟨dk, dr, false⟩ →
    dr.length = acc.length + k ∧ dk.length + k = deck.length := by
  induction k with
  | zero =>
    intro deck acc dk dr hev
    simp only [drawLoop, DrawResult.mk.injEq] at hev
    rw [hev.1, hev.2.1]
    omega
  | succ n ih =>
    intro deck acc dk dr hev
    rcases List.eq_nil_or_concat deck with rfl | ⟨l, a, rfl⟩
    · simp [drawLoop] at hev
    · simp only [drawLoop, List.concat_eq_append, List.getLast?_concat,
        List.dropLast_concat] at hev
      have := ih l (acc ++ [a]) dk dr hev
      simp at this ⊢
      omega

/-- When the requested count exceeds the deck, the loop pops everything
(leaving the deck empty) before reporting the error. -/
lemma drawLoop_underflow (k : Nat) : ∀ deck acc : List Card, deck.length < k →
    drawLoop k deck acc = ⟨[], acc ++ deck.reverse, true⟩ := by
  induction k with
  | zero => intro deck acc h; exact absurd h (Nat.not_lt_zero _)
  | succ n ih =>
    intro deck acc h
    rcases List.eq_nil_or_concat deck with rfl | ⟨l, a, rfl⟩
    · simp [drawLoop]
    · simp only [drawLoop, List.concat_eq_append, List.getLast?_concat,
        List.dropLast_concat]
      rw [ih l (acc ++ [a]) (by simp at h; omega)]
      simp

/-- C8: a successful `draw` splits the shoe exactly (post-deck plus the
reversed drawn cards is the old deck, so the multiset is conserved and
the count drops by the number drawn), `returnToDeck` appends the cards
back, a permuting shuffle conserves the multiset, and returning the
drawn cards restores the original count. -/
theorem claim_C8 (d d2 : Deck) (k : Nat) (cs : List Card)
    (shuffle : List Card → List Card) (hs : ∀ l, (shuffle l).Perm l) :
    (Deck.draw d k = (d2, Except.ok cs) →
      d2.deck ++ cs.reverse = d.deck
      ∧ (d2.deck ++ cs).Perm d.deck
      ∧ cs.length = k
      ∧ ((d2.returnToDeck cs).1).deck.Perm d.deck
      ∧ ((d2.returnToDeck cs).1).deck.length = d.deck.length)
    ∧ ((d.returnToDeck cs).1).deck = d.deck ++ cs
    ∧ (d.shuffleDeck shuffle).deck.Perm d.deck := by
  refine ⟨?_, rfl, hs d.deck⟩
  intro hdraw
  unfold Deck.draw at hdraw
  cases hev : drawLoop k d.deck [] with
  | mk dk dr err =>
    rw [hev] at hdraw
    cases err with
    | true => simp at hdraw
    | false =>
      simp only [Prod.mk.injEq, Deck.mk.injEq] at hdraw
      obtain ⟨hdk, hcs⟩ := hdraw
      have hcs' : dr = cs := by simpa using hcs
      subst hcs'
      subst hdk
      have happ := drawLoop_success_append k d.deck [] dk dr hev
      simp at happ
      have hlen := drawLoop_success_length k d.deck [] dk dr hev
      simp at hlen
      have hperm : (dk ++ dr).Perm d.deck := by
        calc (dk ++ dr).Perm (dk ++ dr.reverse) :=
              List.Perm.append_left dk dr.reverse_perm.symm
          _ = d.deck := happ
      refine ⟨happ, hperm, hlen.1, ?_, ?_⟩
      · simpa [Deck.returnToDeck] using hperm
      · have := hperm.length_eq
        simpa [Deck.returnToDeck] using this

/-- Witness for C8: drawing three cards from a five-card shoe and
returning them restores the count. -/
theorem claim_C8_witness :
    (((Deck.mk [tenS, nineS, fiveS, sixS, twoS]).draw 3).1.returnToDeck
      [twoS, sixS, fiveS]).1.deck.length = 5 :=
  ((claim_C8 (Deck.mk [tenS, nineS, fiveS, sixS, twoS])
      (Deck.mk [tenS, nineS]) 3 [twoS, sixS, fiveS] id (fun l => List.Perm.refl l)).1
    (by rfl)).2.2.2.2

end Blackjack

namespace Blackjack

/-- C9: shoe construction errors (with `invalidArgument`) exactly when
`num_decks < 1`; `draw(n)` errors (with `underflow`) exactly when `n`
exceeds the remaining cards; and `draw(0)` succeeds, returns no cards and
leaves the shoe unchanged. -/
theorem claim_C9 (n : Int) (d : Deck) (k : Nat) :
    ((Deck.init n).isOk = false ↔ n < 1)
    ∧ (n < 1 → Deck.init n = Except.error DeckErr.invalidArgument)
    ∧ ((Deck.draw d k).2 = Except.error DeckErr.underflow ↔ d.deck.length < k)
    ∧ (¬ d.deck.length < k → (Deck.draw d k).2.isOk = true)
    ∧ Deck.draw d 0 = (d, Except.ok []) := by
  refine ⟨?_, ?_, ?_, ?_, rfl⟩
  · unfold Deck.init
    by_cases h : n < 1 <;> simp [h, Except.isOk, Except.toBool]
  · intro h; simp [Deck.init, h]
  · unfold Deck.draw
    simp only [drawLoop_errored]
    by_cases h : d.deck.length < k <;> simp [h]
  · intro h
    unfold Deck.draw
    simp only [drawLoop_errored]
    simp [h, Except.isOk, Except.toBool]

/-- Witness for C9: a zero deck count is rejected. -/
theorem claim_C9_witness :
    Deck.init 0 = Except.error DeckErr.invalidArgument :=
  (claim_C9 0 (Deck.mk []) 0).2.1 (by decide)

/-- C10: an overdraw is not atomic: when `n` exceeds the remaining cards
the loop pops one card at a time (the step equation), only the pop on the
already-empty shoe raises, and at that point the shoe has been emptied
while the partially drawn cards are discarded with the exception rather
than returned. -/
theorem claim_C10 (d : Deck) (k n : Nat) (deck acc : List Card) (a : Card)
    (h : d.deck.length < k) :
    Deck.draw d k = (Deck.mk [], Except.error DeckErr.underflow)
    ∧ drawLoop (n + 1) (deck ++ [a]) acc = drawLoop n deck (acc ++ [a])
    ∧ drawLoop (n + 1) [] acc = ⟨[], acc, true⟩
    ∧ drawLoop k d.deck [] = ⟨[], d.deck.reverse, true⟩ := by
  refine ⟨?_, ?_, rfl, ?_⟩
  · unfold Deck.draw
    rw [drawLoop_underflow k d.deck [] h]
    simp
  · simp [drawLoop, List.getLast?_concat]
  · simpa using drawLoop_underflow k d.deck [] h

/-- Witness for C10: asking four cards of a two-card shoe empties it and
reports underflow. -/
theorem claim_C10_witness :
    (Deck.mk [tenS, nineS]).draw 4 = (Deck.mk [], Except.error DeckErr.underflow) :=
  (claim_C10 (Deck.mk [tenS, nineS]) 4 0 [] [] tenS (by decide)).1

end Blackjack

namespace Blackjack

/-- Whenever the dealer loop returns, the dealer's score has reached 17. -/
lemma dealerLoop_post (fuel : Nat) : ∀ (deck : Deck) (h : Hand) (res : Deck × Hand),
    dealerLoop fuel deck h = some res → ¬(res.2.score < 17) := by
  induction fuel with
  | zero =>
    intro deck h res hev
    unfold dealerLoop at hev
    by_cases hs : h.score < 17
    · simp [hs] at hev
    · simp [hs] at hev
      rw [← hev]
      simpa using hs
  | succ f ih =>
    intro deck h res hev
    unfold dealerLoop at hev
    by_cases hs : h.score < 17
    · simp only [hs, if_true] at hev
      cases hdr : Deck.draw deck 1 with
      | mk d1 r =>
        rw [hdr] at hev
        cases r with
        | ok cs => exact ih d1 (h.addToHand cs) res hev
        | error e => simp at hev
    · simp [hs] at hev
      rw [← hev]
      simpa using hs

/-- C7: the dealer loop returns at once (drawing nothing) when the score
is 17 or more, draws exactly one card per step while below 17, always
finishes at 17 or more, never consults the player hands (two games with
the same deck and dealer produce the same dealer outcome), and from a
16-point dealer hand whose next card is a two it draws exactly that one
card and finishes on 18. -/
theorem claim_C7 (fuel : Nat) (deck d1 : Deck) (h : Hand) (cs : List Card)
    (g1 g2 : Game) :
    (¬(h.score < 17) → dealerLoop fuel deck h = some (deck, h))
    ∧ (h.score < 17 → Deck.draw deck 1 = (d1, Except.ok cs) →
        dealerLoop (fuel + 1) deck h = dealerLoop fuel d1 (h.addToHand cs))
    ∧ (∀ res, dealerLoop fuel deck h = some res → ¬(res.2.score < 17))
    ∧ (g1.deck = g2.deck → g1.dealer = g2.dealer →
        (g1.play_dealer fuel).map (fun g => (g.dealer, g.deck))
          = (g2.play_dealer fuel).map (fun g => (g.dealer, g.deck)))
    ∧ dealerLoop 5 (Deck.mk [nineS, twoS]) (Hand.init [tenS, sixS] 0 true)
        = some (Deck.mk [nineS], (Hand.init [tenS, sixS] 0 true).addToHand [twoS])
    ∧ ((Hand.init [tenS, sixS] 0 true).addToHand [twoS]).score = 18
    ∧ ((Hand.init [tenS, sixS] 0 true).addToHand [twoS]).cards.length = 3
    ∧ (Hand.init [tenS, sixS] 0 true).score = 16 := by
  refine ⟨?_, ?_, fun res => dealerLoop_post fuel deck h res, ?_, by decide, by decide,
    by decide, by decide⟩
  · intro hs
    unfold dealerLoop
    simp [hs]
  · intro hs hdr
    conv_lhs => unfold dealerLoop
    rw [hdr]
    simp [hs]
  · intro hdeck hdealer
    unfold Game.play_dealer
    rw [hdeck, hdealer]
    cases hdl : dealerLoop fuel g2.deck { g2.dealer with hideDealerCards := false } with
    | none => simp [hdl]
    | some dd => simp [hdl]

/-- Witness for C7: an 18-point dealer hand draws nothing. -/
theorem claim_C7_witness :
    dealerLoop 3 (Deck.mk [nineS]) (Hand.init [tenS, nineS] 0 true)
      = some (Deck.mk [nineS], Hand.init [tenS, nineS] 0 true) :=
  (claim_C7 3 (Deck.mk [nineS]) (Deck.mk [nineS]) (Hand.init [tenS, nineS] 0 true)
      [] (Game.mk (Hand.init [] 0 true) [] (Deck.mk []) 0 0 0)
      (Game.mk (Hand.init [] 0 true) [] (Deck.mk []) 0 0 0)).1 (by decide)

end Blackjack


namespace Blackjack

/-- A successful `draw` returns exactly the requested number of cards and
shortens the shoe by that number. -/
lemma draw_ok_length (d d' : Deck) (k : Nat) (cs : List Card)
    (h : Deck.draw d k = (d', Except.ok cs)) :
    cs.length = k ∧ d'.deck.length + k = d.deck.length := by
  unfold Deck.draw at h
  cases hev : drawLoop k d.deck [] with
  | mk dk dr err =>
    rw [hev] at h
    cases err with
    | true => simp at h
    | false =>
      simp only [Prod.mk.injEq, Deck.mk.injEq] at h
      have hl := drawLoop_success_length k d.deck [] dk dr hev
      simp at hl
      rcases h with ⟨h1, h2⟩
      have h2' : dr = cs := by simpa using h2
      rw [← h1, ← h2']
      exact ⟨hl.1, hl.2⟩

/-- One round of dealing gives the dealer exactly two more cards. -/
lemma dealOnce_dealer (g g' : Game) (hev : dealOnce g = some g') :
    ∃ cs : List Card, cs.length = 2 ∧ g'.dealer = g.dealer.addToHand cs := by
  unfold dealOnce at hev
  cases h1 : dealToHands g.deck g.hands with
  | none => rw [h1] at hev; simp at hev
  | some p1 =>
    obtain ⟨d1, hs1⟩ := p1
    rw [h1] at hev
    simp only [] at hev
    cases h2 : dealToHands d1 hs1 with
    | none => rw [h2] at hev; simp at hev
    | some p2 =>
      obtain ⟨d2, hs2⟩ := p2
      rw [h2] at hev
      simp only [] at hev
      cases h3 : Deck.draw d2 2 with
      | mk d3 r =>
        rw [h3] at hev
        cases r with
        | error e => simp at hev
        | ok cs =>
          simp only [Option.some.injEq] at hev
          refine ⟨cs, (draw_ok_length d2 d3 2 cs h3).1, ?_⟩
          rw [← hev]

/-- Returning each hand's cards in a fold appends all of them in order. -/
lemma foldl_returnToDeck (hands : List Hand) : ∀ d : Deck,
    (hands.foldl (fun d h => (d.returnToDeck h.cards).1) d).deck
      = d.deck ++ hands.flatMap (fun h => h.cards) := by
  induction hands with
  | nil => intro d; simp
  | cons h t ih =>
    intro d
    rw [List.foldl_cons, ih]
    simp [Deck.returnToDeck, List.append_assoc]

/-- `resetDeck` puts every dealt card back (up to the shuffle permutation)
and empties every hand, the dealer's included. -/
lemma resetDeck_spec (g : Game) (shuffle : List Card → List Card)
    (hs : ∀ l, (shuffle l).Perm l) :
    (g.resetDeck shuffle).deck.deck.Perm
      (g.deck.deck ++ g.hands.flatMap (fun h => h.cards) ++ g.dealer.cards)
    ∧ (∀ h ∈ (g.resetDeck shuffle).hands, h.cards = [])
    ∧ (g.resetDeck shuffle).dealer.cards = [] := by
  refine ⟨?_, ?_, rfl⟩
  · have h2 : ((g.hands.foldl (fun d h => (d.returnToDeck h.cards).1) g.deck).returnToDeck
        g.dealer.cards).1.deck
        = g.deck.deck ++ g.hands.flatMap (fun h => h.cards) ++ g.dealer.cards := by
      have hf := foldl_returnToDeck g.hands g.deck
      show ((g.hands.foldl (fun d h => (d.returnToDeck h.cards).1) g.deck).deck
        ++ g.dealer.cards) = _
      rw [hf, List.append_assoc]
    unfold Game.resetDeck Deck.shuffleDeck
    dsimp only
    rw [h2]
    exact hs _
  · intro h hmem
    unfold Game.resetDeck at hmem
    simp only [List.mem_map] at hmem
    obtain ⟨x, _, hx⟩ := hmem
    rw [← hx]

/-- The deal loop at positive fuel runs one dealing pass and either stops
(dealer not on 21) or recurses on the reset and reshuffled state. -/
lemma deal_succ (g : Game) (shuffles : Nat → List Card → List Card) (f : Nat) :
    g.deal shuffles (f + 1)
      = match dealOnce g with
        | none => none
        | some g2 =>
          if g2.dealer.score = 21 then (g2.resetDeck (shuffles f)).deal shuffles f
          else some g2 := rfl

/-- A successful `deal` leaves the dealer with exactly two cards, a score
recomputed from them, and that score different from 21. -/
lemma deal_dealer (fuel : Nat) : ∀ (g g' : Game) (shuffles : Nat → List Card → List Card),
    g.dealer.cards = [] → g.deal shuffles fuel = some g' →
    g'.dealer.cards.length = 2 ∧ g'.dealer.score = handScore g'.dealer.cards
      ∧ g'.dealer.score ≠ 21 := by
  induction fuel with
  | zero => intro g g' sh h0 hev; simp [Game.deal] at hev
  | succ f ih =>
    intro g g' sh h0 hev
    rw [deal_succ] at hev
    cases hdo : dealOnce g with
    | none => rw [hdo] at hev; simp at hev
    | some g1 =>
      rw [hdo] at hev
      simp only [] at hev
      by_cases hs : g1.dealer.score = 21
      · rw [if_pos hs] at hev
        exact ih _ _ sh rfl hev
      · rw [if_neg hs] at hev
        simp only [Option.some.injEq] at hev
        subst hev
        obtain ⟨cs, hlen, hdl⟩ := dealOnce_dealer g g1 hdo
        have hcards : g1.dealer.cards = cs := by
          rw [hdl]; simp [Hand.addToHand, Hand.updateScore, h0]
        refine ⟨by rw [hcards]; exact hlen, ?_, hs⟩
        rw [hdl]
        simp [Hand.addToHand, Hand.updateScore, h0]

/-- C5: a round that deals the dealer an opening 21 is aborted — the body
equation shows the loop recurses on the fully reset and reshuffled state —
`resetDeck` returns every player and dealer card to the shoe (up to the
shuffle permutation) and empties the hands, and any state the deal loop
returns has a two-card dealer hand whose recomputed score is not 21. -/
theorem claim_C5 (g g1 g' : Game) (shuffles : Nat → List Card → List Card) (fuel : Nat)
    (hperm : ∀ l, ((shuffles fuel) l).Perm l) :
    (g.dealer.cards = [] → g.deal shuffles fuel = some g' →
      g'.dealer.cards.length = 2 ∧ g'.dealer.score = handScore g'.dealer.cards
        ∧ g'.dealer.score ≠ 21)
    ∧ (dealOnce g = some g1 → g1.dealer.score = 21 →
        g.deal shuffles (fuel + 1) = (g1.resetDeck (shuffles fuel)).deal shuffles fuel)
    ∧ (g.resetDeck (shuffles fuel)).deck.deck.Perm
        (g.deck.deck ++ g.hands.flatMap (fun h => h.cards) ++ g.dealer.cards)
    ∧ (∀ h ∈ (g.resetDeck (shuffles fuel)).hands, h.cards = [])
    ∧ (g.resetDeck (shuffles fuel)).dealer.cards = [] := by
  obtain ⟨hr1, hr2, hr3⟩ := resetDeck_spec g (shuffles fuel) hperm
  refine ⟨fun h0 hev => deal_dealer fuel g g' shuffles h0 hev, ?_, hr1, hr2, hr3⟩
  intro hdo hs
  rw [deal_succ, hdo]
  simp only [if_pos hs]

/-- Witness for C5: resetting a one-hand game empties the dealer's hand
back into the shoe. -/
theorem claim_C5_witness :
    ((Game.mk (Hand.init [tenS, aceS] 0 true) [Hand.init [kingS, nineS] 50]
        (Deck.mk []) 950 50 1).resetDeck ((fun _ => id) 3)).dealer.cards = [] :=
  (claim_C5 (Game.mk (Hand.init [tenS, aceS] 0 true) [Hand.init [kingS, nineS] 50]
      (Deck.mk []) 950 50 1)
      (Game.mk (Hand.init [] 0 true) [] (Deck.mk []) 0 0 0)
      (Game.mk (Hand.init [] 0 true) [] (Deck.mk []) 0 0 0)
      (fun _ => id) 3 (fun l => List.Perm.refl l)).2.2.2.2

end Blackjack

namespace Blackjack

/-- Folding the settlement step over the hands finishes every hand and
threads the bankroll through `settleMoney`. -/
lemma settle_foldl (dealer : Hand) (hands : List Hand) : ∀ (acc : List Hand) (m : Rat),
    hands.foldl (fun (p : List Hand × Rat) h =>
        (p.1 ++ [h.finishHand dealer], settleMoney p.2 (h.finishHand dealer))) (acc, m)
      = (acc ++ hands.map (fun h => h.finishHand dealer),
         hands.foldl (fun m h => settleMoney m (h.finishHand dealer)) m) := by
  induction hands with
  | nil => intro acc m; simp
  | cons h t ih => intro acc m; simp [List.foldl_cons, ih]

section

attribute [local semireducible] Rat.add Rat.sub Rat.mul Rat.inv

/-- C2: the settlement adjustment is a function of status and bet alone —
push returns the bet, a blackjack win pays 2.5 times the bet, a plain win
pays twice the bet, a loss pays nothing — `play_dealer` applies exactly
that adjustment per hand, and the end-to-end example (bankroll 1000, one
hand betting 50, dealt a natural against a dealer 19) finishes on 1075. -/
theorem claim_C2 (money : Rat) (h : Hand) (g g' : Game) (fuel : Nat) (dd : Deck × Hand) :
    (h.status = 0 → settleMoney money h = money + h.bet)
    ∧ (h.status = 1 → h.blackjack = true → settleMoney money h = money + h.bet * (5 / 2 : Rat))
    ∧ (h.status = 1 → h.blackjack = false → settleMoney money h = money + h.bet * 2)
    ∧ (h.status = -1 → settleMoney money h = money)
    ∧ (dealerLoop fuel g.deck { g.dealer with hideDealerCards := false } = some dd →
        g.play_dealer fuel = some g' →
        g'.hands = g.hands.map (fun hh => hh.finishHand dd.2)
        ∧ g'.total_money
            = g.hands.foldl (fun m hh => settleMoney m (hh.finishHand dd.2)) g.total_money)
    ∧ ((Game.init 1 1000 50 [50] 1).toOption.map
        (fun g0 => (g0.total_money, g0.hands.map (fun hh => hh.bet))) = some (950, [50]))
    ∧ (((Game.init 1 1000 50 [50] 1).toOption.bind
        (fun g0 => g0.begin_game exampleShuffle (fun _ => id) [] 10)).map
        (fun gg => (gg.total_money, gg.hands.map (fun hh => (hh.status, hh.blackjack))))
      = some (1075, [(1, true)])) := by
  refine ⟨?_, ?_, ?_, ?_, ?_, by decide, by decide⟩
  · intro hst; simp [settleMoney, Hand.checkHand, hst]
  · intro hst hbj; simp [settleMoney, Hand.checkHand, hst, hbj]
  · intro hst hbj; simp [settleMoney, Hand.checkHand, hst, hbj]
  · intro hst; simp [settleMoney, Hand.checkHand, hst]
  · intro hdl hpd
    unfold Game.play_dealer at hpd
    dsimp only at hpd hdl
    rw [hdl] at hpd
    simp only [Option.some.injEq] at hpd
    rw [settle_foldl] at hpd
    rw [← hpd]
    exact ⟨by simp, rfl⟩

/-- Witness for C2: a pushed hand with bet 50 returns exactly its bet. -/
theorem claim_C2_witness :
    settleMoney 100 { Hand.init [] 50 with status := 0 } = 100 + 50 :=
  (claim_C2 100 { Hand.init [] 50 with status := 0 }
      (Game.mk (Hand.init [] 0 true) [] (Deck.mk []) 0 0 0)
      (Game.mk (Hand.init [] 0 true) [] (Deck.mk []) 0 0 0) 0
      (Deck.mk [], Hand.init [] 0 true)).1 (by decide)

end

end Blackjack

namespace Blackjack

/-- Inserting after a valid position grows the list by one. -/
lemma insertAfterIdx_length (nh : Hand) : ∀ (l : List Hand) (i : Nat), i < l.length →
    (insertAfterIdx l i nh).length = l.length + 1 := by
  intro l
  induction l with
  | nil => intro i h; simp at h
  | cons hd t ih =>
    intro i h
    cases i with
    | zero => simp [insertAfterIdx]
    | succ k =>
      have h' : k < t.length := by simpa using h
      simp [insertAfterIdx, ih k h']

/-- Index view of the insertion: positions up to `i` are unchanged, the
new hand sits at `i + 1`, and later positions shift up by one. -/
lemma insertAfterIdx_getElem? (nh : Hand) : ∀ (l : List Hand) (i j : Nat), i < l.length →
    (insertAfterIdx l i nh)[j]? =
      if j ≤ i then l[j]? else if j = i + 1 then some nh else l[j - 1]? := by
  intro l
  induction l with
  | nil => intro i j h; simp at h
  | cons hd t ih =>
    intro i j h
    cases i with
    | zero =>
      cases j with
      | zero => simp [insertAfterIdx]
      | succ m =>
        cases m with
        | zero => simp [insertAfterIdx]
        | succ m2 => simp [insertAfterIdx]
    | succ k =>
      have h' : k < t.length := by simpa using h
      cases j with
      | zero => simp [insertAfterIdx]
      | succ m =>
        simp only [insertAfterIdx, List.getElem?_cons_succ]
        rw [ih k m h']
        by_cases h1 : m ≤ k
        · simp [h1, Nat.succ_le_succ h1]
        · have h1' : ¬(m + 1 ≤ k + 1) := by omega
          by_cases h2 : m = k + 1
          · have h2' : m + 1 = k + 1 + 1 := by omega
            simp [h1, h1', h2, h2']
          · have h2' : ¬(m + 1 = k + 1 + 1) := by omega
            have hm : 1 ≤ m := by omega
            simp only [h1, h1', h2, h2', if_false, Nat.add_sub_cancel]
            conv_rhs => rw [show m = (m - 1) + 1 by omega]
            rw [List.getElem?_cons_succ]

end Blackjack

namespace Blackjack

/-- Unfolding of the Split state change at a two-card hand: the bet is
deducted once, the kept hand retains the first card, and the new hand
(same bet, both marked split) is inserted right after it. -/
lemma splitAt_eq (g : Game) (hand_i : Nat) (hand : Hand) (a b : Card)
    (hh : g.hands[hand_i]? = some hand) (hc : hand.cards = [a, b]) :
    g.splitAt hand_i = some
      { g with total_money := g.total_money - hand.bet,
               hands := insertAfterIdx
                 (g.hands.set hand_i
                   { Hand.updateScore { hand with cards := [a] } with split := true })
                 hand_i
                 { Hand.init [b] hand.bet with split := true } } := by
  unfold Game.splitAt
  rw [hh]
  dsimp only
  unfold Hand.popFromHand
  rw [hc]
  simp only [List.getLast?, List.dropLast]
  rfl

end Blackjack

namespace Blackjack

/-- C6: Split is offered exactly for a two-card equal-rank non-split hand
whose bet the bankroll covers; taking it deducts the bet once, keeps the
first card in the current hand, inserts the second card as a new
same-bet hand right after it (both marked split, all other hands
untouched), and the action prompt is re-entered on the same index — so in
`play_players` the current hand is replayed before the inserted hand at
`i + 1` is reached. -/
theorem claim_C6 (money : Rat) (h hand : Hand) (g gs g2 : Game)
    (hand_i f : Nat) (script rest : List Nat) (a b : Card) :
    (Action.split ∈ availableActions money h ↔
      (h.cards.length = 2 ∧ h.split = false ∧ h.bet ≤ money
        ∧ cardNumAt h.cards 0 = cardNumAt h.cards 1))
    ∧ (g.hands[hand_i]? = some hand → hand.cards = [a, b] →
        g.splitAt hand_i ≠ none
        ∧ (g.splitAt hand_i = some gs →
            gs.total_money = g.total_money - hand.bet
            ∧ gs.hands.length = g.hands.length + 1
            ∧ gs.hands[hand_i]?.map (fun hh => (hh.cards, hh.split, hh.bet))
                = some ([a], true, hand.bet)
            ∧ gs.hands[hand_i + 1]?.map (fun hh => (hh.cards, hh.split, hh.bet))
                = some ([b], true, hand.bet)
            ∧ (∀ j, j < hand_i → gs.hands[j]? = g.hands[j]?)
            ∧ (∀ j, hand_i + 1 < j → gs.hands[j]? = g.hands[j - 1]?)))
    ∧ (g.hands[hand_i]? = some hand → hand.blackjack = false → hand.split = false →
        hand.cards.length = 2 → hand.bet ≤ g.total_money →
        cardNumAt hand.cards 0 = cardNumAt hand.cards 1 →
        g.splitAt hand_i = some gs →
        actionPrompt (f + 1) (4 :: rest) g hand_i = actionPrompt f rest gs hand_i)
    ∧ (hand_i < g.hands.length →
        actionPrompt (f + 1) script g hand_i = some (g2, rest) →
        playersLoop (f + 1) script g hand_i = playersLoop f rest g2 (hand_i + 1)) := by
  refine ⟨?_, ?_, ?_, ?_⟩
  · unfold availableActions
    by_cases h2 : h.cards.length = 2
    · by_cases hsp : h.split
      · have h3 : ¬(¬(h.split : Prop) ∧ money ≥ h.bet) := by simp [hsp]
        simp [h2, h3, hsp]
      · by_cases hm : h.bet ≤ money
        · have h3 : (¬(h.split : Prop) ∧ money ≥ h.bet) := by simp [hsp, ge_iff_le, hm]
          by_cases h4 : cardNumAt h.cards 0 = cardNumAt h.cards 1
          · simp [h2, h3, h4, hsp, hm]
          · simp [h2, h3, h4]
        · have h3 : ¬(¬(h.split : Prop) ∧ money ≥ h.bet) := by simp [hsp, ge_iff_le, hm]
          simp [h2, h3, hm]
    · simp [h2]
  · intro hh hc
    have hlt : hand_i < g.hands.length := by
      by_contra hcon
      rw [List.getElem?_eq_none (by omega)] at hh
      exact absurd hh (by simp)
    have heq := splitAt_eq g hand_i hand a b hh hc
    refine ⟨by rw [heq]; simp, ?_⟩
    intro hgs
    rw [heq] at hgs
    simp only [Option.some.injEq] at hgs
    subst hgs
    have hsetlen : (g.hands.set hand_i
        { Hand.updateScore { hand with cards := [a] } with split := true }).length
        = g.hands.length := by simp
    have hltset : hand_i < (g.hands.set hand_i
        { Hand.updateScore { hand with cards := [a] } with split := true }).length := by
      rw [hsetlen]; exact hlt
    refine ⟨rfl, ?_, ?_, ?_, ?_, ?_⟩
    · simp [insertAfterIdx_length _ _ _ hltset]
    · rw [insertAfterIdx_getElem? _ _ _ _ hltset]
      simp only [le_refl, if_true]
      rw [List.getElem?_set_eq_of_lt _ hlt]
      simp [Hand.updateScore]
    · rw [insertAfterIdx_getElem? _ _ _ _ hltset]
      have : ¬(hand_i + 1 ≤ hand_i) := by omega
      simp only [this, if_false, if_pos rfl]
      simp [Hand.init, Hand.updateScore]
    · intro j hj
      rw [insertAfterIdx_getElem? _ _ _ _ hltset]
      simp only [Nat.le_of_lt hj, if_true]
      rw [List.getElem?_set_ne]
      omega
    · intro j hj
      rw [insertAfterIdx_getElem? _ _ _ _ hltset]
      have h1 : ¬(j ≤ hand_i) := by omega
      have h2 : ¬(j = hand_i + 1) := by omega
      simp only [h1, h2, if_false]
      rw [List.getElem?_set_ne]
      omega
  · intro hh hbj hsp hlen hm hrk hgs
    conv_lhs => unfold actionPrompt
    rw [hh]
    dsimp only
    rw [if_neg (by simp [hbj])]
    rw [if_neg (by simp [hsp])]
    have hn : (availableActions g.total_money hand).length = 4 := by
      unfold availableActions
      have h3 : (¬(hand.split : Prop) ∧ g.total_money ≥ hand.bet) := by
        simp [hsp, ge_iff_le, hm]
      simp [hlen, h3, hrk]
    rw [hn]
    rw [if_pos (by omega)]
    rw [if_neg (by omega), if_neg (by omega), if_neg (by omega)]
    rw [hgs]
  · intro hlt hap
    conv_lhs => unfold playersLoop
    rw [if_pos hlt, hap]

end Blackjack

namespace Blackjack

section

attribute [local semireducible] Rat.add Rat.sub Rat.mul Rat.inv

/-- Witness for C6: a pair of tens with the bet covered is offered the
Split action. -/
theorem claim_C6_witness :
    Action.split ∈ availableActions 100 (Hand.init [tenS, tenS] 50) :=
  (claim_C6 100 (Hand.init [tenS, tenS] 50) (Hand.init [] 0)
      (Game.mk (Hand.init [] 0 true) [] (Deck.mk []) 0 0 0)
      (Game.mk (Hand.init [] 0 true) [] (Deck.mk []) 0 0 0)
      (Game.mk (Hand.init [] 0 true) [] (Deck.mk []) 0 0 0)
      0 0 [] [] tenS tenS).1.mpr
    ⟨by decide, by decide, by decide, by decide⟩

end

end Blackjack
